import Mathlib

/-!
Verification of the posts backend (`src/main.py`): filename sanitation,
post persistence, listing order, HTML stripping, export pipeline, and the
upload/create endpoints, shallowly embedded over `List Char` / `String`.
-/

namespace WebPortal

/-! ## Character classes (ASCII range of the Python predicates used) -/

/-- ASCII whitespace recognised by Python's `\s` / `str.strip` (restricted to
the ASCII range: space, tab, newline, carriage return, vertical tab, form feed). -/
def pyWs (c : Char) : Bool :=
  c == ' ' || c == '\t' || c == '\n' || c == '\r' || c == Char.ofNat 11 || c == Char.ofNat 12

/-- The character class `[a-zA-Z0-9._-]` kept by `clean_filename`'s `re.sub`. -/
def allowedChar (c : Char) : Bool :=
  c.isAlphanum || c == '.' || c == '_' || c == '-'

/-! ## `os.path.splitext` -/

/-- Embedding of Python's `os.path.splitext` (posix): split off the extension at
the last dot of the basename, except when every character of the basename before
that dot is itself a dot (leading-dot filenames such as `.bashrc` have no
extension).  Implemented by scanning the reversed string. -/
def splitext (f : List Char) : List Char × List Char :=
  match (f.reverse.takeWhile (fun c => !(c == '/'))).dropWhile (fun c => !(c == '.')) with
  | [] => (f, [])
  | _ :: rstem =>
    if rstem.any (fun c => !(c == '.')) then
      ((f.reverse.dropWhile (fun c => !(c == '/'))).reverse ++ rstem.reverse,
       '.' :: ((f.reverse.takeWhile (fun c => !(c == '/'))).takeWhile
         (fun c => !(c == '.'))).reverse)
    else (f, [])

/-! ## `clean_filename` -/

/-- Embedding of `clean_filename` (src/main.py:48-69): split via `splitext`,
keep only `[a-zA-Z0-9._-]` in the stem, fall back to `"image"` when the stem
comes out empty, truncate the stem to 50 characters, reattach the extension. -/
def clean_filename (f : List Char) : List Char :=
  if f = [] then "image".toList
  else
    let ne := splitext f
    let clean1 := ne.1.filter allowedChar
    let clean2 := if clean1 = [] then "image".toList else clean1
    let clean3 := if 50 < clean2.length then clean2.take 50 else clean2
    clean3 ++ ne.2

/-- The stem that `clean_filename` attaches in front of the extension. -/
def cleanStem (f : List Char) : List Char :=
  let c := (splitext f).1.filter allowedChar
  (if c = [] then "image".toList else c).take 50

/-- Split a filename at its last dot, unconditionally (no leading-dot
exception); used to compare the sanitizer against the spec's wording. -/
def splitAtLastDot (f : List Char) : List Char × List Char :=
  match f.reverse.dropWhile (fun c => !(c == '.')) with
  | [] => (f, [])
  | _ :: rstem =>
    (rstem.reverse, '.' :: (f.reverse.takeWhile (fun c => !(c == '.'))).reverse)

/-- Modelled from the spec: the sanitizer algorithm exactly as the claim words
it — "split into stem and extension at the last dot", strip disallowed
characters, `"image"` fallback, truncate to 50, reattach extension. -/
def clean_filename_claim (f : List Char) : List Char :=
  let ne := splitAtLastDot f
  let clean1 := ne.1.filter allowedChar
  let clean2 := if clean1 = [] then "image".toList else clean1
  clean2.take 50 ++ ne.2

/-! ## `strip_html_tags` (src/main.py:169-180) -/

/-- `\s*` — skip a run of whitespace. -/
def skipWs (l : List Char) : List Char := l.dropWhile pyWs

/-- Case-insensitive literal match: if `l` starts with `pat` (compared after
lowercasing `l`'s characters; `pat` is given in lowercase), return the rest. -/
def matchCI : List Char → List Char → Option (List Char)
  | [], l => some l
  | _ :: _, [] => none
  | p :: ps, c :: cs => if c.toLower == p then matchCI ps cs else none

/-- Match the opening part `<\s*(script|style)[^>]*>` of the script/style
regex at the head of `l`; on success return the captured tag name and the rest
after the `>`.  `[^>]*>` deterministically consumes up to the first `>`. -/
def matchOpen (l : List Char) : Option (List Char × List Char) :=
  match l with
  | '<' :: rest =>
    let afterWs := skipWs rest
    let tryName := fun (name : List Char) =>
      match matchCI name afterWs with
      | some r2 =>
        match r2.dropWhile (fun c => !(c == '>')) with
        | '>' :: after => some (name, after)
        | _ => none
      | none => none
    (tryName "script".toList).orElse (fun _ => tryName "style".toList)
  | _ => none

/-- Match the closing part `<\s*/\s*\1\s*>` at the head of `l` (the
backreference compares case-insensitively under `re.IGNORECASE`). -/
def matchClose (name : List Char) (l : List Char) : Option (List Char) :=
  match l with
  | '<' :: r1 =>
    match skipWs r1 with
    | '/' :: r2 =>
      match matchCI name (skipWs r2) with
      | some r3 =>
        match skipWs r3 with
        | '>' :: r4 => some r4
        | _ => none
      | none => none
    | _ => none
  | _ => none

/-- The lazy `[\s\S]*?` before the closing tag: find the earliest position
where the closing tag matches, returning the rest after it. -/
def findClose (name : List Char) : List Char → Option (List Char)
  | [] => none
  | c :: cs =>
    match matchClose name (c :: cs) with
    | some r => some r
    | none => findClose name cs

/-- One left-to-right pass of
`re.sub(r"<\s*(script|style)[^>]*>[\s\S]*?<\s*/\s*\1\s*>", " ", html, re.I)`:
at each position try to match a whole script/style element (opening tag, lazy
body, matching closing tag) and replace it by a single space, else copy the
character.  `fuel` bounds recursion; every recursive call consumes at least
one character, so `fuel = length` (see `removeScriptStyle`) never runs out. -/
def removeScriptStyleFuel : Nat → List Char → List Char
  | 0, l => l
  | _ + 1, [] => []
  | fuel + 1, c :: cs =>
    if c == '<' then
      match matchOpen (c :: cs) with
      | some nameAfter =>
        match findClose nameAfter.1 nameAfter.2 with
        | some after => ' ' :: removeScriptStyleFuel fuel after
        | none => c :: removeScriptStyleFuel fuel cs
      | none => c :: removeScriptStyleFuel fuel cs
    else c :: removeScriptStyleFuel fuel cs

/-- Removal of `<script>`/`<style>` elements with their content (first
substitution of `strip_html_tags`). -/
def removeScriptStyle (l : List Char) : List Char := removeScriptStyleFuel l.length l

/-- One left-to-right pass of `re.sub(r"<[^>]+>", " ", html)` as a scanner:
when a `<` is followed (possibly after other characters, none of them `>`)
by a `>` with at least one character in between, the whole `<...>` span is
replaced by a single space; a `<` with no later `>` (or immediately closed
`<>`) is kept literally.  The buffer holds, reversed, the characters seen
since the pending `<`. -/
def stripTagsAux : Option (List Char) → List Char → List Char
  | none, [] => []
  | some buf, [] => '<' :: buf.reverse
  | none, c :: cs => if c == '<' then stripTagsAux (some []) cs else c :: stripTagsAux none cs
  | some buf, c :: cs =>
    if c == '>' then
      match buf with
      | [] => '<' :: '>' :: stripTagsAux none cs
      | _ :: _ => ' ' :: stripTagsAux none cs
    else stripTagsAux (some (c :: buf)) cs

/-- The second substitution of `strip_html_tags`: strip all remaining tags. -/
def stripTags (l : List Char) : List Char := stripTagsAux none l

/-- Characters that may appear in an entity name. -/
def entityNameChar (c : Char) : Bool := c.isAlphanum

/-- Modelled from the spec: the entity table of Python's `html.unescape`,
which is not in src/; restricted here to the common named XML entities plus
`nbsp` (semicolon-terminated forms; numeric references and the legacy
semicolon-less forms are outside this model). -/
def entityValue (name : List Char) : Option Char :=
  if name = "amp".toList then some '&'
  else if name = "lt".toList then some '<'
  else if name = "gt".toList then some '>'
  else if name = "quot".toList then some '"'
  else if name = "nbsp".toList then some (Char.ofNat 160)
  else none

/-- Scanner for entity decoding: the buffer holds, reversed, the name
characters seen since the pending `&`; a terminating `;` decodes known names
and leaves unknown ones untouched. -/
def unescapeAux : Option (List Char) → List Char → List Char
  | none, [] => []
  | some buf, [] => '&' :: buf.reverse
  | none, c :: cs => if c == '&' then unescapeAux (some []) cs else c :: unescapeAux none cs
  | some buf, c :: cs =>
    if c == ';' then
      match entityValue buf.reverse with
      | some ch => ch :: unescapeAux none cs
      | none => ('&' :: buf.reverse) ++ ';' :: unescapeAux none cs
    else if c == '&' then ('&' :: buf.reverse) ++ unescapeAux (some []) cs
    else if entityNameChar c then unescapeAux (some (c :: buf)) cs
    else ('&' :: buf.reverse) ++ c :: unescapeAux none cs

/-- `html.unescape` over the modelled entity subset. -/
def unescapeEntities (l : List Char) : List Char := unescapeAux none l

/-- `re.sub(r"\s+", " ", text)`: replace every maximal nonempty whitespace run
by a single space.  The flag records whether the previous character was
whitespace (so the run's space is emitted only once). -/
def collapseAux : Bool → List Char → List Char
  | _, [] => []
  | prev, c :: cs =>
    if pyWs c then
      if prev then collapseAux true cs else ' ' :: collapseAux true cs
    else c :: collapseAux false cs

/-- `str.strip()` (ASCII-whitespace range): drop whitespace from both ends. -/
def pyStrip (l : List Char) : List Char :=
  ((l.dropWhile pyWs).reverse.dropWhile pyWs).reverse

/-- Embedding of `strip_html_tags` (src/main.py:169-180): remove
script/style elements, strip remaining tags, decode entities, collapse
whitespace, trim. -/
def strip_html_tags (html : List Char) : List Char :=
  if html = [] then []
  else pyStrip (collapseAux false (unescapeEntities (stripTags (removeScriptStyle html))))

/-! ## Data model (the JSON post documents) -/

/-- An attachment record as stored inside a post document. -/
structure Attachment where
  id : String
  name : String
  size : String
  downloadUrl : String
  original_filename : Option String
deriving DecidableEq, Repr

/-- An uploaded-image record as stored inside a post document. -/
structure UploadedImage where
  id : String
  filename : String
  url : String
  original_filename : Option String
deriving DecidableEq, Repr

/-- A stored post document.  `uploaded_images = none` models a legacy
document in which the `uploaded_images` key is absent. -/
structure PostData where
  id : String
  title : String
  department : String
  author : String
  views : Nat
  postDate : String
  endDate : Option String
  category : String
  badges : List String
  content : String
  attachments : List Attachment
  uploaded_images : Option (List UploadedImage)
deriving DecidableEq, Repr

/-! ## Post repository (src/main.py:147-167, 337-349)

The posts directory is modelled as a map from post id to the stored
document; `save_post_to_file` overwrites the file `<id>.json`. -/

/-- The posts directory: one optional document per post id. -/
def PostStore : Type := String → Option PostData

/-- `save_post_to_file` (src/main.py:147-150): overwrite the document
stored under `post_id`. -/
def save_post_to_file (store : PostStore) (post_id : String) (p : PostData) : PostStore :=
  fun k => if k = post_id then some p else store k

/-- `load_post_from_file` (src/main.py:152-157): read the document stored
under `post_id`, or `none` when the file does not exist. -/
def load_post_from_file (store : PostStore) (post_id : String) : Option PostData :=
  store post_id

/-- The body of `get_post` on a loaded document (src/main.py:343-346):
default a missing `uploaded_images` to `[]`, then increment `views`. -/
def serve_post (p : PostData) : PostData :=
  let p1 := if p.uploaded_images = none then { p with uploaded_images := some [] } else p
  { p1 with views := p1.views + 1 }

/-- `get_post` (src/main.py:337-349): load, 404 (`none`, store untouched)
when missing; otherwise default a missing `uploaded_images` to `[]`,
increment `views`, persist, and return the updated document. -/
def get_post (store : PostStore) (post_id : String) : PostStore × Option PostData :=
  match load_post_from_file store post_id with
  | none => (store, none)
  | some p => (save_post_to_file store post_id (serve_post p), some (serve_post p))

/-- `get_all_posts` (src/main.py:159-167): the loaded documents (given in
directory-enumeration order) sorted by `postDate` descending; Python's
`sorted(..., reverse=True)` is a stable descending sort. -/
def get_all_posts (stored : List PostData) : List PostData :=
  List.insertionSort (fun a b => b.postDate ≤ a.postDate) stored

/-! ## Export pipeline (src/main.py:378-596) -/

/-- `find_file_by_prefix` (src/main.py:182-186): the first directory entry
whose name starts with the given prefix, joined to the directory path.  The
directory is modelled by its listing `entries` plus its path `dirName`. -/
def find_file_by_prefix (entries : List String) (dirName : String) (pfx : String) :
    Option String :=
  (entries.find? (fun f => pfx.data.isPrefixOf f.data)).map (fun f => dirName ++ "/" ++ f)

/-- `"data/uploads"`. -/
def UPLOADS_DIR : String := "data/uploads"
/-- `"data/images"`. -/
def IMAGES_DIR : String := "data/images"

/-- Remove every trailing `/` — Python's `base_url.rstrip('/')`. -/
def rstripSlashes (s : String) : String :=
  String.mk ((s.data.reverse.dropWhile (fun c => c == '/')).reverse)

/-- `build_absolute_url` (src/main.py:188-191): prefix a relative URL with
the base URL (trailing slashes stripped) when a non-empty base is given. -/
def build_absolute_url (rel : String) (base : Option String) : String :=
  match base with
  | none => rel
  | some b => if b = "" then rel else rstripSlashes b ++ rel

/-- The `include_files` query parameter. -/
inductive IncludeFiles
  | none
  | metadata
  | files
deriving DecidableEq, Repr

/-- The file-system facts the export pipeline consults: directory listings
of the two blob directories, plus `mimetypes.guess_type`, `os.path.exists`,
`os.path.getsize` (`none` models the swallowed exception) and the
base64-encoded file read (`none` models the swallowed read failure). -/
structure Env where
  uploads : List String
  images : List String
  mime : String → Option String
  fileExists : String → Bool
  fsize : String → Option Nat
  readB64 : String → Option String

/-- One attachment entry of the JSON export.  `path = none` models an absent
`"path"` key, `path = some none` the JSON `null` written on failed
resolution. -/
structure AttItem where
  id : String
  name : String
  size_display : String
  download_url : String
  path : Option (Option String) := none
  mime_type : Option String := none
  size_bytes : Option (Option Nat) := none
  content_base64 : Option String := none
  content_encoding : Option String := none
deriving DecidableEq, Repr

/-- One image entry of the JSON export. -/
structure ImgItem where
  id : String
  filename : String
  url : String
  path : Option (Option String) := none
  mime_type : Option String := none
  size_bytes : Option (Option Nat) := none
  content_base64 : Option String := none
  content_encoding : Option String := none
deriving DecidableEq, Repr

/-- The fields of an attachment entry that come from the post record alone
(src/main.py:403-409). -/
def att_item_basic (base : Option String) (att : Attachment) : AttItem :=
  { id := att.id, name := att.name, size_display := att.size,
    download_url := build_absolute_url att.downloadUrl base }

/-- The fields of an image entry that come from the post record alone
(src/main.py:440-444). -/
def img_item_basic (base : Option String) (img : UploadedImage) : ImgItem :=
  { id := img.id, filename := img.filename,
    url := build_absolute_url img.url base }

/-- One attachment entry of the JSON export (src/main.py:402-434):
`metadata`/`files` resolve the blob and add path, MIME type and byte size;
`files` additionally embeds the base64 content; failed resolution writes
`"path": null`. -/
def export_att_json (env : Env) (incl : IncludeFiles) (base : Option String)
    (att : Attachment) : AttItem :=
  let item := att_item_basic base att
  match incl with
  | IncludeFiles.none => item
  | _ =>
    match find_file_by_prefix env.uploads UPLOADS_DIR att.id with
    | some fp =>
      if env.fileExists fp then
        let item2 := { item with
          path := some (some fp),
          mime_type := some ((env.mime fp).getD "application/octet-stream"),
          size_bytes := some (env.fsize fp) }
        if incl = IncludeFiles.files then
          { item2 with
            content_base64 := env.readB64 fp,
            content_encoding := (env.readB64 fp).map (fun _ => "base64") }
        else item2
      else { item with path := some none }
    | none => { item with path := some none }

/-- One image entry of the JSON export (src/main.py:436-469). -/
def export_img_json (env : Env) (incl : IncludeFiles) (base : Option String)
    (img : UploadedImage) : ImgItem :=
  let item := img_item_basic base img
  match incl with
  | IncludeFiles.none => item
  | _ =>
    match find_file_by_prefix env.images IMAGES_DIR img.id with
    | some fp =>
      if env.fileExists fp then
        let item2 := { item with
          path := some (some fp),
          mime_type := some ((env.mime fp).getD "application/octet-stream"),
          size_bytes := some (env.fsize fp) }
        if incl = IncludeFiles.files then
          { item2 with
            content_base64 := env.readB64 fp,
            content_encoding := (env.readB64 fp).map (fun _ => "base64") }
        else item2
      else { item with path := some none }
    | none => { item with path := some none }

/-- The `"metadata"` sub-object emitted for each post (both formats). -/
structure ExportMeta where
  department : String
  author : String
  category : String
  badges : List String
  postDate : String
  endDate : Option String
  views : Nat
deriving DecidableEq, Repr

/-- Build the `"metadata"` sub-object from a post. -/
def post_meta (p : PostData) : ExportMeta :=
  { department := p.department, author := p.author, category := p.category,
    badges := p.badges, postDate := p.postDate, endDate := p.endDate,
    views := p.views }

/-- One post of the JSON export. -/
structure PostItemJson where
  id : String
  title : String
  content_html : String
  content_text : String
  metadata : ExportMeta
  attachments : List AttItem
  images : List ImgItem
deriving DecidableEq, Repr

/-- One post of the JSON export (src/main.py:393-487): derived plain text,
metadata, and per-attachment/per-image entries; an absent `uploaded_images`
key (and Python's `or []`) yields an empty image list. -/
def export_post_json (env : Env) (incl : IncludeFiles) (base : Option String)
    (p : PostData) : PostItemJson :=
  { id := p.id, title := p.title, content_html := p.content,
    content_text := String.mk (strip_html_tags p.content.data),
    metadata := post_meta p,
    attachments := p.attachments.map (export_att_json env incl base),
    images := (p.uploaded_images.getD []).map (export_img_json env incl base) }

/-- The JSON export response (`exported_at` timestamp omitted — it depends
only on the clock). -/
structure ExportJson where
  include_files : IncludeFiles
  count : Nat
  posts : List PostItemJson
deriving DecidableEq, Repr

/-- The JSON branch of `export_posts` (src/main.py:391-494). -/
def export_posts_json (env : Env) (incl : IncludeFiles) (base : Option String)
    (posts : List PostData) : ExportJson :=
  let exported := posts.map (export_post_json env incl base)
  { include_files := incl, count := exported.length, posts := exported }

/-- One attachment entry of the ZIP export's `posts.json`. -/
structure ZipAttEntry where
  id : String
  original_name : String
  file_path : String
  size_display : String
deriving DecidableEq, Repr

/-- One image entry of the ZIP export's `posts.json`. -/
structure ZipImgEntry where
  id : String
  original_name : String
  file_path : String
  url : String
deriving DecidableEq, Repr

/-- One post of the ZIP export's `posts.json`. -/
structure ZipPostEntry where
  id : String
  title : String
  content_html : String
  content_text : String
  metadata : ExportMeta
  attachments : List ZipAttEntry
  images : List ZipImgEntry
deriving DecidableEq, Repr

/-- Python's `a or b` for an optional string: `b` when `a` is `None` or
empty. -/
def py_or_else (o : Option String) (dflt : String) : String :=
  match o with
  | some s => if s = "" then dflt else s
  | none => dflt

/-- One post of the ZIP branch (src/main.py:504-572), together with the
archive-relative paths of the blob files copied for it.  Entries (and
copies) are produced only when `include_files = "files"`, and only for
identifiers that resolve to an existing blob. -/
def export_post_zip (env : Env) (incl : IncludeFiles) (p : PostData) :
    ZipPostEntry × List String :=
  let atts : List ZipAttEntry :=
    if incl = IncludeFiles.files then
      p.attachments.filterMap (fun att =>
        match find_file_by_prefix env.uploads UPLOADS_DIR att.id with
        | some fp =>
          if env.fileExists fp then
            some { id := att.id,
                   original_name := py_or_else att.original_filename att.name,
                   file_path := "attachments/" ++ att.id ++ "_" ++
                     py_or_else att.original_filename att.name,
                   size_display := att.size }
          else none
        | none => none)
    else []
  let imgs : List ZipImgEntry :=
    if incl = IncludeFiles.files then
      (p.uploaded_images.getD []).filterMap (fun img =>
        match find_file_by_prefix env.images IMAGES_DIR img.id with
        | some fp =>
          if env.fileExists fp then
            some { id := img.id,
                   original_name := py_or_else img.original_filename img.filename,
                   file_path := "images/" ++ img.id ++ "_" ++
                     py_or_else img.original_filename img.filename,
                   url := img.url }
          else none
        | none => none)
    else []
  ({ id := p.id, title := p.title, content_html := p.content,
     content_text := String.mk (strip_html_tags p.content.data),
     metadata := post_meta p, attachments := atts, images := imgs },
   atts.map (fun a => a.file_path) ++ imgs.map (fun i => i.file_path))

/-- The ZIP branch of `export_posts` (src/main.py:496-596): the `posts.json`
entries plus all copied blob files.  The endpoint's `base_url` parameter is
in scope but never used by this branch. -/
def export_posts_zip (env : Env) (incl : IncludeFiles) (_base : Option String)
    (posts : List PostData) : List ZipPostEntry × List String :=
  let results := posts.map (export_post_zip env incl)
  (results.map Prod.fst, (results.map Prod.snd).flatten)

/-! ## Post creation and single-image upload (src/main.py:201-327, 598-631) -/

/-- An incoming multipart file: its (optional) client filename, (optional)
content type, and content size in bytes. -/
structure UploadFile where
  filename : Option String
  content_type : Option String
  size : Nat
deriving DecidableEq, Repr

/-- Python's `f.filename and f.filename.strip()` truthiness: the filename is
present, and contains at least one non-whitespace character. -/
def truthyStrip (o : Option String) : Bool :=
  match o with
  | some s => s.data.any (fun c => !(pyWs c))
  | none => false

/-- The human-readable size string of src/main.py:238-243 (integer
division, thresholds at 1024 and 1024²). -/
def size_str (n : Nat) : String :=
  if n < 1024 then toString n ++ "B"
  else if n < 1024 * 1024 then toString (n / 1024) ++ "KB"
  else toString (n / (1024 * 1024)) ++ "MB"

/-- Image content types accepted by `create_post` (src/main.py:266). -/
def allowed_types_create : List String :=
  ["image/jpeg", "image/jpg", "image/png", "image/gif", "image/webp", "image/bmp"]

/-- Image content types accepted by `upload_image` (src/main.py:608). -/
def allowed_types_upload : List String :=
  ["image/jpeg", "image/jpg", "image/png", "image/gif", "image/webp"]

/-- The guard of the attachment loop (src/main.py:224): a file is processed
only when its filename is non-empty after stripping. -/
def fileAccepted (f : UploadFile) : Bool := truthyStrip f.filename

/-- The guard of the image loop (src/main.py:262-267): non-blank filename,
present non-empty content type starting with `image/` and in the allowed
list. -/
def imageAccepted (img : UploadFile) : Bool :=
  truthyStrip img.filename &&
  (match img.content_type with
   | some ct => !(ct = "") && "image/".data.isPrefixOf ct.data && allowed_types_create.contains ct
   | none => false)

/-- What the attachment loop produces: the attachment records of the new
post, and the filenames of the blobs written to the uploads directory. -/
structure AttOut where
  records : List Attachment
  blobs : List String
deriving DecidableEq, Repr

/-- What the image loop produces: the uploaded-image records, the generated
`<img>` tags appended to the content, and the blobs written to the images
directory. -/
structure ImgOut where
  records : List UploadedImage
  tags : List String
  blobs : List String
deriving DecidableEq, Repr

/-- The attachment loop of `create_post` (src/main.py:220-254).  `idGen k`
is the `k`-th freshly generated identifier; identifiers are drawn only for
accepted files, mirroring the `uuid4` call inside the guard. -/
def processFilesAux (idGen : Nat → String) : Nat → List UploadFile → AttOut
  | _, [] => ⟨[], []⟩
  | k, f :: rest =>
    if fileAccepted f then
      let file_id := idGen k
      let clean_original_name := String.mk (clean_filename (f.filename.getD "").data)
      let exten := (splitext clean_original_name.data).2
      let saved_filename := file_id ++ String.mk exten
      let tail := processFilesAux idGen (k + 1) rest
      { records := { id := file_id, name := clean_original_name,
                     size := size_str f.size,
                     downloadUrl := "/api/attachments/" ++ file_id ++ "/download",
                     original_filename := f.filename } :: tail.records,
        blobs := saved_filename :: tail.blobs }
    else processFilesAux idGen k rest

/-- The image loop of `create_post` (src/main.py:256-299): rejected files
are skipped with only a log line; accepted ones get a stored blob, a record
and an `<img>` tag (extension defaulting to `.jpg`). -/
def processImagesAux (idGen : Nat → String) : Nat → List UploadFile → ImgOut
  | _, [] => ⟨[], [], []⟩
  | k, img :: rest =>
    if imageAccepted img then
      let image_id := idGen k
      let clean_original_name := String.mk (clean_filename (img.filename.getD "").data)
      let e := (splitext clean_original_name.data).2
      let exten := if e = [] then ".jpg" else String.mk e
      let saved_filename := image_id ++ exten
      let image_url := "/static/images/" ++ saved_filename
      let tail := processImagesAux idGen (k + 1) rest
      { records := { id := image_id, filename := clean_original_name,
                     url := image_url, original_filename := img.filename } :: tail.records,
        tags := ("<img src=\"" ++ image_url ++ "\" alt=\"" ++ clean_original_name ++
                 "\" style=\"max-width: 100%; height: auto;\">") :: tail.tags,
        blobs := saved_filename :: tail.blobs }
    else processImagesAux idGen k rest

/-- The response of `upload_image`. -/
structure UploadImageResp where
  imageId : String
  imageUrl : String
  filename : String
deriving DecidableEq, Repr

/-- `upload_image` (src/main.py:598-631): reject (HTTP 400) a missing or
non-`image/` content type and any type outside the allowed list; otherwise
store the blob under the fresh id plus the original extension (`.jpg` when
no filename) and return id, URL and filename. -/
def upload_image (image_id : String) (img : UploadFile) : Except Nat UploadImageResp :=
  match img.content_type with
  | none => Except.error 400
  | some ct =>
    if ct = "" then Except.error 400
    else if !("image/".data.isPrefixOf ct.data) then Except.error 400
    else if !(allowed_types_upload.contains ct) then Except.error 400
    else
      let file_extension :=
        match img.filename with
        | some f => if f = "" then ".jpg" else String.mk (splitext f.data).2
        | none => ".jpg"
      let saved_filename := image_id ++ file_extension
      Except.ok { imageId := image_id,
                  imageUrl := "/static/images/" ++ saved_filename,
                  filename := py_or_else img.filename saved_filename }

/-! ## Concrete sample data used by witnesses and counterexamples -/

/-- A legacy-shaped stored document: its `uploaded_images` key is absent. -/
def legacyPost : PostData :=
  { id := "p1", title := "t", department := "d", author := "a", views := 3,
    postDate := "2024-01-01", endDate := none, category := "c", badges := [],
    content := "<p>hi</p>", attachments := [], uploaded_images := none }

/-- A store holding only `legacyPost` under `"p1"`. -/
def store1 : PostStore := save_post_to_file (fun _ => none) "p1" legacyPost

/-- A sample post dated `2024-01-01`. -/
def postJan : PostData :=
  { legacyPost with id := "j", postDate := "2024-01-01", uploaded_images := some [] }
/-- A sample post dated `2024-03-15`. -/
def postMar : PostData :=
  { legacyPost with id := "m", postDate := "2024-03-15", uploaded_images := some [] }
/-- A sample post dated `2024-02-10`. -/
def postFeb : PostData :=
  { legacyPost with id := "f", postDate := "2024-02-10", uploaded_images := some [] }

/-- A sample attachment whose id resolves in `env0`. -/
def att0 : Attachment :=
  { id := "a1", name := "r.pdf", size := "2KB",
    downloadUrl := "/api/attachments/a1/download", original_filename := some "r.pdf" }

/-- A sample uploaded image whose id resolves in `env0`. -/
def img0 : UploadedImage :=
  { id := "i1", filename := "pic.png", url := "/static/images/i1.png",
    original_filename := some "pic.png" }

/-- A post carrying `att0` and `img0`. -/
def post0 : PostData :=
  { legacyPost with id := "p0", attachments := [att0], uploaded_images := some [img0] }

/-- A file-system environment in which `att0` and `img0` resolve. -/
def env0 : Env :=
  { uploads := ["a1.pdf"], images := ["i1.png"],
    mime := fun _ => some "application/pdf",
    fileExists := fun _ => true,
    fsize := fun _ => some 2048,
    readB64 := fun _ => some "QUJD" }

/-- An image upload with a content type `create_post` accepts but
`upload_image` rejects. -/
def bmpUpload : UploadFile :=
  { filename := some "shot.bmp", content_type := some "image/bmp", size := 10 }

/-! ## Helper lemmas on `takeWhile` / `dropWhile` -/

theorem takeWhile_append_all {p : Char → Bool} {l1 : List Char} (l2 : List Char)
    (h : ∀ a ∈ l1, p a = true) :
    (l1 ++ l2).takeWhile p = l1 ++ l2.takeWhile p := by
  induction l1 with
  | nil => simp
  | cons a t ih =>
    have ha := h a (by simp)
    simp only [List.cons_append, List.takeWhile_cons, ha, if_true]
    rw [ih (fun x hx => h x (by simp [hx]))]

theorem dropWhile_append_all {p : Char → Bool} {l1 : List Char} (l2 : List Char)
    (h : ∀ a ∈ l1, p a = true) :
    (l1 ++ l2).dropWhile p = l2.dropWhile p := by
  induction l1 with
  | nil => simp
  | cons a t ih =>
    have ha := h a (by simp)
    simp only [List.cons_append, List.dropWhile_cons, ha, if_true]
    exact ih (fun x hx => h x (by simp [hx]))

theorem dropWhile_head_false {p : Char → Bool} :
    ∀ {l l' : List Char} {a : Char}, l.dropWhile p = a :: l' → p a = false := by
  intro l
  induction l with
  | nil => intro l' a h; simp at h
  | cons b t ih =>
    intro l' a h
    cases hb : p b with
    | true => rw [List.dropWhile_cons, hb] at h; simp at h; exact ih h
    | false =>
      rw [List.dropWhile_cons, hb] at h
      simp at h
      rw [← h.1]; exact hb

/-! ## Structure of `splitext` and `clean_filename` -/

/-- `splitext` either returns the input with an empty extension, or splits it
into a nonempty part and an extension that starts with a dot and contains no
further dot and no slash. -/
theorem splitext_shape (f : List Char) :
    splitext f = (f, []) ∨
    ∃ n re, splitext f = (n, '.' :: re) ∧ f = n ++ '.' :: re ∧ n ≠ [] ∧
      ∀ c ∈ re, (c == '.') = false ∧ (c == '/') = false := by
  cases h : (f.reverse.takeWhile (fun c => !(c == '/'))).dropWhile (fun c => !(c == '.')) with
  | nil => left; simp [splitext, h]
  | cons d rstem =>
    have hd : d = '.' := by
      have := dropWhile_head_false h
      simpa using this
    cases hany : rstem.any (fun c => !(c == '.')) with
    | false => left; simp [splitext, h, hany]
    | true =>
      right
      refine ⟨(f.reverse.dropWhile (fun c => !(c == '/'))).reverse ++ rstem.reverse,
              ((f.reverse.takeWhile (fun c => !(c == '/'))).takeWhile
                (fun c => !(c == '.'))).reverse, ?_, ?_, ?_, ?_⟩
      · simp [splitext, h, hany]
      · have hsplit := List.takeWhile_append_dropWhile (fun c => !(c == '/')) f.reverse
        have hsplit2 := List.takeWhile_append_dropWhile (fun c => !(c == '.'))
          (f.reverse.takeWhile (fun c => !(c == '/')))
        rw [h, hd] at hsplit2
        conv_lhs => rw [← List.reverse_reverse f, ← hsplit, ← hsplit2]
        simp [List.reverse_append]
      · obtain ⟨x, hx, -⟩ := List.any_eq_true.mp hany
        intro hcontra
        rcases List.append_eq_nil.mp hcontra with ⟨-, h2⟩
        rw [List.reverse_eq_nil_iff] at h2
        subst h2
        simp at hx
      · intro c hc
        rw [List.mem_reverse] at hc
        constructor
        · have := List.mem_takeWhile_imp hc
          simpa using this
        · have hc2 : c ∈ f.reverse.takeWhile (fun c => !(c == '/')) :=
            List.takeWhile_subset _ hc
          have := List.mem_takeWhile_imp hc2
          simpa using this

/-- `clean_filename` is the sanitized stem followed by the `splitext`
extension. -/
theorem clean_filename_eq (f : List Char) :
    clean_filename f = cleanStem f ++ (splitext f).2 := by
  by_cases hf : f = []
  · subst hf; rfl
  · simp only [clean_filename, cleanStem, if_neg hf]
    split_ifs with h1 h2 h2
    · rfl
    · rw [List.take_of_length_le (le_of_not_lt h2)]
    · rfl
    · rw [List.take_of_length_le (le_of_not_lt h2)]

/-- The sanitized stem is never empty. -/
theorem cleanStem_ne_nil (f : List Char) : cleanStem f ≠ [] := by
  rw [cleanStem]
  intro h
  rcases List.take_eq_nil_iff.mp h with h | h
  · exact absurd h (by norm_num)
  · split_ifs at h with h2
    · simp at h
    · exact h2 h

/-- The sanitized stem has at most 50 characters. -/
theorem cleanStem_length (f : List Char) : (cleanStem f).length ≤ 50 := by
  rw [cleanStem, List.length_take]
  exact inf_le_left

/-- Every character of the sanitized stem is in `[a-zA-Z0-9._-]`. -/
theorem cleanStem_allowed (f : List Char) :
    ∀ c ∈ cleanStem f, allowedChar c = true := by
  intro c hc
  rw [cleanStem] at hc
  have hc2 := List.take_subset _ _ hc
  split_ifs at hc2 with h2
  · have himg : ∀ d ∈ "image".toList, allowedChar d = true := by decide
    exact himg c hc2
  · exact List.of_mem_filter hc2

theorem clean_filename_fixed (s : List Char) (h1 : s ≠ []) (h2 : s.length ≤ 50)
    (h3 : ∀ c ∈ s, allowedChar c = true) : clean_filename s = s := by
  rw [clean_filename_eq]
  rcases splitext_shape s with h | ⟨n, re, hsp, hdecomp, hn, -⟩
  · rw [cleanStem, h]
    simp only
    rw [List.filter_eq_self.mpr h3, if_neg h1, List.take_of_length_le h2, List.append_nil]
  · rw [cleanStem, hsp]
    simp only
    have hnall : ∀ c ∈ n, allowedChar c = true := fun c hc =>
      h3 c (by rw [hdecomp]; exact List.mem_append_left _ hc)
    have hnlen : n.length ≤ 50 := by
      rw [hdecomp, List.length_append] at h2
      omega
    rw [List.filter_eq_self.mpr hnall, if_neg hn, List.take_of_length_le hnlen, ← hdecomp]

theorem splitext_append_ext (s re : List Char)
    (hs : ∀ c ∈ s, (c == '/') = false)
    (hany : s.any (fun c => !(c == '.')) = true)
    (hre : ∀ c ∈ re, (c == '.') = false ∧ (c == '/') = false) :
    splitext (s ++ '.' :: re) = (s, '.' :: re) := by
  have hall : ∀ c ∈ (s ++ '.' :: re).reverse, (!(c == '/')) = true := by
    intro c hc
    rw [List.mem_reverse, List.mem_append, List.mem_cons] at hc
    rcases hc with hc | rfl | hc
    · simp [hs c hc]
    · decide
    · simp [(hre c hc).2]
  have htake : (s ++ '.' :: re).reverse.takeWhile (fun c => !(c == '/')) =
      (s ++ '.' :: re).reverse := List.takeWhile_eq_self_iff.mpr hall
  have hdropsl : (s ++ '.' :: re).reverse.dropWhile (fun c => !(c == '/')) = [] :=
    List.dropWhile_eq_nil_iff.mpr hall
  have hrev : (s ++ '.' :: re).reverse = re.reverse ++ '.' :: s.reverse := by
    simp
  have hreall : ∀ c ∈ re.reverse, (fun c => !(c == '.')) c = true := by
    intro c hc
    rw [List.mem_reverse] at hc
    simp [(hre c hc).1]
  have hscrut : ((s ++ '.' :: re).reverse.takeWhile (fun c => !(c == '/'))).dropWhile
      (fun c => !(c == '.')) = '.' :: s.reverse := by
    rw [htake, hrev, dropWhile_append_all _ hreall, List.dropWhile_cons]
    simp
  have htakedot : ((s ++ '.' :: re).reverse.takeWhile (fun c => !(c == '/'))).takeWhile
      (fun c => !(c == '.')) = re.reverse := by
    rw [htake, hrev, takeWhile_append_all _ hreall, List.takeWhile_cons]
    simp
  unfold splitext
  rw [hscrut]
  simp only [List.any_reverse, hany, if_true, hdropsl, htakedot, List.reverse_nil,
    List.nil_append, List.reverse_reverse]
/-- C2 (amended): `clean_filename` splits via `splitext` — at the last dot of
the basename unless only dots precede it, in which case the filename has no
extension — then strips every character outside `[A-Za-z0-9._-]` from the
stem, substitutes `"image"` for an empty stem, truncates it to 50
characters, and reattaches the extension unchanged; the returned stem is
non-empty, 1-50 characters long, and drawn from `[A-Za-z0-9._-]`. -/
theorem clean_filename_spec_amended (f : List Char) :
    clean_filename f = cleanStem f ++ (splitext f).2 ∧
    cleanStem f ≠ [] ∧ 1 ≤ (cleanStem f).length ∧ (cleanStem f).length ≤ 50 ∧
    ∀ c ∈ cleanStem f, allowedChar c = true :=
  ⟨clean_filename_eq f, cleanStem_ne_nil f,
   List.length_pos.mpr (cleanStem_ne_nil f), cleanStem_length f,
   cleanStem_allowed f⟩

/-- C2 counterexample: the sanitizer does not split `".bashrc"` at its last
dot — `os.path.splitext` treats a leading-dot filename as having no
extension, so the code returns `".bashrc"` while the claimed
split-at-last-dot algorithm would return `"image.bashrc"`. -/
theorem clean_filename_lastdot_cex :
    clean_filename ".bashrc".toList ≠ clean_filename_claim ".bashrc".toList ∧
    clean_filename ".bashrc".toList = ".bashrc".toList ∧
    clean_filename_claim ".bashrc".toList = "image.bashrc".toList :=
  ⟨by decide, by decide, by decide⟩

/-- C9 (amended): `clean_filename` is idempotent on every filename whose
sanitized stem contains a non-dot character, and on every filename without
an extension; when the stem sanitizes to dots only, the second application
merges stem and extension and may sanitize or truncate further. -/
theorem clean_filename_idem_amended (f : List Char)
    (h : (cleanStem f).any (fun c => !(c == '.')) = true ∨ (splitext f).2 = []) :
    clean_filename (clean_filename f) = clean_filename f := by
  rcases splitext_shape f with hsp | ⟨n, re, hsp, hdecomp, hn, hre⟩
  · rw [clean_filename_eq f, hsp]
    simp only [List.append_nil]
    exact clean_filename_fixed _ (cleanStem_ne_nil f) (cleanStem_length f)
      (cleanStem_allowed f)
  · have hext : (splitext f).2 = '.' :: re := by rw [hsp]
    have hany : (cleanStem f).any (fun c => !(c == '.')) = true := by
      rcases h with h | h
      · exact h
      · rw [hext] at h; simp at h
    have hsall : ∀ c ∈ cleanStem f, (c == '/') = false := by
      intro c hc
      have hac := cleanStem_allowed f c hc
      cases hcc : (c == '/') with
      | false => rfl
      | true =>
        have hceq : c = '/' := by simpa using hcc
        rw [hceq] at hac
        exact absurd hac (by decide)
    have hsp2 := splitext_append_ext (cleanStem f) re hsall hany hre
    rw [clean_filename_eq f, hext, clean_filename_eq (cleanStem f ++ '.' :: re), hsp2,
        cleanStem, hsp2]
    simp only
    rw [List.filter_eq_self.mpr (cleanStem_allowed f), if_neg (cleanStem_ne_nil f),
        List.take_of_length_le (cleanStem_length f)]

/-- Witness for C9 (amended) at the filename `"a.txt"`. -/
theorem clean_filename_idem_witness :
    ((cleanStem "a.txt".toList).any (fun c => !(c == '.')) = true ∨
      (splitext "a.txt".toList).2 = ([] : List Char)) ∧
    clean_filename (clean_filename "a.txt".toList) = clean_filename "a.txt".toList :=
  ⟨Or.inl (by decide), clean_filename_idem_amended _ (Or.inl (by decide))⟩

/-- C9 counterexample: for `"?..?.t?t"` the sanitizer yields `"...t?t"`, and
a second application yields `"...tt"` — `clean_filename` is not idempotent. -/
theorem clean_filename_idem_cex :
    clean_filename (clean_filename "?..?.t?t".toList) ≠
      clean_filename "?..?.t?t".toList := by
  decide
/-! ## Helper lemmas on the post repository -/

theorem load_save (store : PostStore) (pid : String) (p : PostData) :
    load_post_from_file (save_post_to_file store pid p) pid = some p := by
  simp [load_post_from_file, save_post_to_file]

theorem get_post_found {store : PostStore} {pid : String} {p : PostData}
    (h : load_post_from_file store pid = some p) :
    get_post store pid =
      (save_post_to_file store pid (serve_post p), some (serve_post p)) := by
  unfold get_post
  rw [h]

theorem serve_post_views (p : PostData) : (serve_post p).views = p.views + 1 := by
  unfold serve_post
  split_ifs <;> rfl

theorem serve_post_ui_of_none {p : PostData} (h : p.uploaded_images = none) :
    (serve_post p).uploaded_images = some [] := by
  unfold serve_post
  rw [if_pos h]

theorem serve_post_ui_ne (p : PostData) : (serve_post p).uploaded_images ≠ none := by
  unfold serve_post
  split_ifs with h
  · simp
  · simpa using h

/-- C1: saving a post and loading it by its identifier returns an equal
record, and serving a stored document that lacks the `uploaded_images`
field (via `get_post`) succeeds and materializes the field as the empty
list rather than failing. -/
theorem post_save_load_roundtrip :
    (∀ (store : PostStore) (p : PostData),
       load_post_from_file (save_post_to_file store p.id p) p.id = some p) ∧
    (∀ (store : PostStore) (pid : String) (p : PostData),
       load_post_from_file store pid = some p → p.uploaded_images = none →
       ∃ st' r, get_post store pid = (st', some r) ∧ r.uploaded_images = some [] ∧
         load_post_from_file st' pid = some r) := by
  constructor
  · intro store p
    exact load_save store p.id p
  · intro store pid p hload hui
    exact ⟨_, _, get_post_found hload, serve_post_ui_of_none hui, load_save _ _ _⟩

/-- Witness for C1 at a one-post store holding a legacy-shaped document. -/
theorem post_save_load_roundtrip_witness :
    load_post_from_file store1 "p1" = some legacyPost ∧
    legacyPost.uploaded_images = none ∧
    ∃ st' r, get_post store1 "p1" = (st', some r) ∧ r.uploaded_images = some [] ∧
      load_post_from_file st' "p1" = some r :=
  ⟨by decide, rfl, post_save_load_roundtrip.2 store1 "p1" legacyPost (by decide) rfl⟩

/-- C5: retrieving a post by id increments `views` by exactly 1 and persists
the updated record immediately; a second retrieval yields `views + 2`, with
the stored record showing the final count; an unknown id yields a 404 and
leaves the store unchanged. -/
theorem get_post_views (store : PostStore) (pid : String) :
    (∀ p, load_post_from_file store pid = some p →
      ∃ st' r, get_post store pid = (st', some r) ∧ r.views = p.views + 1 ∧
        load_post_from_file st' pid = some r ∧
        ∃ st'' r', get_post st' pid = (st'', some r') ∧ r'.views = p.views + 2 ∧
          load_post_from_file st'' pid = some r') ∧
    (load_post_from_file store pid = none → get_post store pid = (store, none)) := by
  constructor
  · intro p hload
    refine ⟨_, _, get_post_found hload, serve_post_views p, load_save _ _ _,
            _, _, get_post_found (load_save _ _ _), ?_, load_save _ _ _⟩
    rw [serve_post_views, serve_post_views]
  · intro hnone
    unfold get_post
    rw [hnone]

/-- Witness for C5 at a one-post store. -/
theorem get_post_views_witness :
    load_post_from_file store1 "p1" = some legacyPost ∧
    ∃ st' r, get_post store1 "p1" = (st', some r) ∧ r.views = legacyPost.views + 1 ∧
      load_post_from_file st' "p1" = some r ∧
      ∃ st'' r', get_post st' "p1" = (st'', some r') ∧ r'.views = legacyPost.views + 2 ∧
        load_post_from_file st'' "p1" = some r' :=
  ⟨by decide, (get_post_views store1 "p1").1 legacyPost (by decide)⟩
/-- C6: `get_all_posts` returns exactly the stored records (a permutation),
ordered by `postDate` descending (lexicographic on the date strings); when
all stored dates are distinct the output dates are strictly decreasing. -/
theorem get_all_posts_sorted :
    (∀ stored : List PostData, (get_all_posts stored).Perm stored) ∧
    (∀ stored : List PostData,
       (get_all_posts stored).Pairwise (fun a b => b.postDate ≤ a.postDate)) ∧
    (∀ stored : List PostData, (stored.map PostData.postDate).Nodup →
       (get_all_posts stored).Pairwise (fun a b => b.postDate < a.postDate)) := by
  haveI htot : IsTotal PostData (fun a b => b.postDate ≤ a.postDate) :=
    ⟨fun a b => le_total b.postDate a.postDate⟩
  haveI htrans : IsTrans PostData (fun a b => b.postDate ≤ a.postDate) :=
    ⟨fun _ _ _ hab hbc => le_trans hbc hab⟩
  refine ⟨?_, ?_, ?_⟩
  · intro stored
    exact List.perm_insertionSort _ stored
  · intro stored
    exact List.sorted_insertionSort _ stored
  · intro stored hnd
    have hperm : (get_all_posts stored).Perm stored := List.perm_insertionSort _ stored
    have hnd2 : ((get_all_posts stored).map PostData.postDate).Nodup :=
      (List.Perm.map PostData.postDate hperm.symm).nodup hnd
    have hne : (get_all_posts stored).Pairwise
        (fun a b => PostData.postDate a ≠ PostData.postDate b) :=
      List.pairwise_map.mp hnd2
    have hle : (get_all_posts stored).Pairwise (fun a b => b.postDate ≤ a.postDate) :=
      List.sorted_insertionSort _ stored
    refine (hle.and hne).imp ?_
    rintro a b ⟨h1, h2⟩
    exact lt_of_le_of_ne h1 (Ne.symm h2)

/-- Witness for C6 at the spec's example dates `2024-01-01`, `2024-03-15`,
`2024-02-10`. -/
theorem get_all_posts_sorted_witness :
    ([postJan, postMar, postFeb].map PostData.postDate).Nodup ∧
    (get_all_posts [postJan, postMar, postFeb]).Pairwise
      (fun a b => b.postDate < a.postDate) :=
  ⟨by decide, get_all_posts_sorted.2.2 [postJan, postMar, postFeb] (by decide)⟩

/-- C10: during post creation an attachment with a blank filename, and an
image with a blank filename or a missing/disallowed content type, is
silently skipped — processing a list of uploads equals processing only its
accepted elements (no blob, no record, no tag for the skipped ones, and the
loop still succeeds) — whereas the standalone `upload_image` endpoint
rejects any content type outside its allowed list with HTTP 400. -/
theorem create_post_silent_skip :
    (∀ (idGen : Nat → String) (k : Nat) (fs : List UploadFile),
       processFilesAux idGen k fs = processFilesAux idGen k (fs.filter fileAccepted)) ∧
    (∀ (idGen : Nat → String) (k : Nat) (imgs : List UploadFile),
       processImagesAux idGen k imgs =
         processImagesAux idGen k (imgs.filter imageAccepted)) ∧
    (∀ (idv : String) (img : UploadFile),
       allowed_types_upload.contains (img.content_type.getD "") = false →
       upload_image idv img = Except.error 400) := by
  refine ⟨?_, ?_, ?_⟩
  · intro idGen k fs
    induction fs generalizing k with
    | nil => rfl
    | cons f rest ih =>
      cases hf : fileAccepted f with
      | true => simp [List.filter_cons, hf, processFilesAux, ih]
      | false => simp [List.filter_cons, hf, processFilesAux, ih]
  · intro idGen k imgs
    induction imgs generalizing k with
    | nil => rfl
    | cons f rest ih =>
      cases hf : imageAccepted f with
      | true => simp [List.filter_cons, hf, processImagesAux, ih]
      | false => simp [List.filter_cons, hf, processImagesAux, ih]
  · intro idv img h
    cases hct : img.content_type with
    | none => simp [upload_image, hct]
    | some ct =>
      rw [hct] at h
      simp only [Option.getD_some] at h
      by_cases h1 : ct = ""
      · simp [upload_image, hct, h1]
      · cases h2 : "image/".data.isPrefixOf ct.data with
        | false => simp [upload_image, hct, h1, h2]
        | true =>
          have h3 : ct ∉ allowed_types_upload := by simpa using h
          simp [upload_image, hct, h1, h2, h3]

/-- Witness for C10: a `image/bmp` upload is accepted by the creation loop's
allowed list but rejected by `upload_image`. -/
theorem create_post_silent_skip_witness :
    allowed_types_upload.contains (bmpUpload.content_type.getD "") = false ∧
    upload_image "abc123" bmpUpload = Except.error 400 :=
  ⟨by decide, create_post_silent_skip.2.2 "abc123" bmpUpload (by decide)⟩
/-- C4: with `includeFiles = none`, in both formats, the export never
consults the file system (the result is independent of the entire
environment — listings, existence, MIME, sizes, contents); the JSON entries
carry only identifiers, names, sizes and URLs taken from the post records,
and the ZIP branch emits no attachment/image entries and copies no files. -/
theorem export_none_frame :
    (∀ (env env' : Env) (base : Option String) (posts : List PostData),
       export_posts_json env IncludeFiles.none base posts =
         export_posts_json env' IncludeFiles.none base posts) ∧
    (∀ (env env' : Env) (base : Option String) (posts : List PostData),
       export_posts_zip env IncludeFiles.none base posts =
         export_posts_zip env' IncludeFiles.none base posts) ∧
    (∀ (env : Env) (base : Option String) (posts : List PostData),
       (export_posts_json env IncludeFiles.none base posts).posts =
         posts.map (fun p =>
           { id := p.id, title := p.title, content_html := p.content,
             content_text := String.mk (strip_html_tags p.content.data),
             metadata := post_meta p,
             attachments := p.attachments.map (att_item_basic base),
             images := (p.uploaded_images.getD []).map (img_item_basic base) })) ∧
    (∀ (env : Env) (base : Option String) (posts : List PostData),
       (∀ z ∈ (export_posts_zip env IncludeFiles.none base posts).1,
          z.attachments = [] ∧ z.images = []) ∧
       (export_posts_zip env IncludeFiles.none base posts).2 = []) := by
  refine ⟨?_, ?_, ?_, ?_⟩
  · intro env env' base posts
    rfl
  · intro env env' base posts
    rfl
  · intro env base posts
    rfl
  · intro env base posts
    constructor
    · intro z hz
      simp only [export_posts_zip, List.map_map, List.mem_map] at hz
      obtain ⟨p, -, hp⟩ := hz
      rw [← hp]
      constructor <;> simp [export_post_zip]
    · simp [export_posts_zip, export_post_zip]

/-- C3 (amended): in the JSON encoding with `includeFiles = metadata`,
every attachment and image entry either resolves to a stored blob and then
carries the detected MIME type (with `application/octet-stream` fallback)
and the byte size, or is marked with a `null` path — and the export still
succeeds, emitting one entry per post; in the ZIP encoding, however,
`includeFiles = metadata` performs no resolution at all: the attachment and
image entry lists of `posts.json` stay empty (entries exist only for
`includeFiles = files`, and even then without MIME type or byte size). -/
theorem export_metadata_enrichment :
    (∀ (env : Env) (base : Option String) (att : Attachment),
       (∃ fp, find_file_by_prefix env.uploads UPLOADS_DIR att.id = some fp ∧
          env.fileExists fp = true ∧
          export_att_json env IncludeFiles.metadata base att =
            { att_item_basic base att with
                path := some (some fp),
                mime_type := some ((env.mime fp).getD "application/octet-stream"),
                size_bytes := some (env.fsize fp) }) ∨
       export_att_json env IncludeFiles.metadata base att =
         { att_item_basic base att with path := some none }) ∧
    (∀ (env : Env) (base : Option String) (img : UploadedImage),
       (∃ fp, find_file_by_prefix env.images IMAGES_DIR img.id = some fp ∧
          env.fileExists fp = true ∧
          export_img_json env IncludeFiles.metadata base img =
            { img_item_basic base img with
                path := some (some fp),
                mime_type := some ((env.mime fp).getD "application/octet-stream"),
                size_bytes := some (env.fsize fp) }) ∨
       export_img_json env IncludeFiles.metadata base img =
         { img_item_basic base img with path := some none }) ∧
    (∀ (env : Env) (base : Option String) (posts : List PostData),
       (export_posts_json env IncludeFiles.metadata base posts).count = posts.length ∧
       (export_posts_json env IncludeFiles.metadata base posts).posts.length =
         posts.length) ∧
    (∀ (env : Env) (p : PostData),
       (export_post_zip env IncludeFiles.metadata p).1.attachments = [] ∧
       (export_post_zip env IncludeFiles.metadata p).1.images = [] ∧
       (export_post_zip env IncludeFiles.metadata p).2 = []) := by
  refine ⟨?_, ?_, ?_, ?_⟩
  · intro env base att
    cases hf : find_file_by_prefix env.uploads UPLOADS_DIR att.id with
    | none =>
      right
      simp [export_att_json, hf]
    | some fp =>
      cases he : env.fileExists fp with
      | true =>
        left
        exact ⟨fp, rfl, he, by simp [export_att_json, hf, he]⟩
      | false =>
        right
        simp [export_att_json, hf, he]
  · intro env base img
    cases hf : find_file_by_prefix env.images IMAGES_DIR img.id with
    | none =>
      right
      simp [export_img_json, hf]
    | some fp =>
      cases he : env.fileExists fp with
      | true =>
        left
        exact ⟨fp, rfl, he, by simp [export_img_json, hf, he]⟩
      | false =>
        right
        simp [export_img_json, hf, he]
  · intro env base posts
    constructor <;> simp [export_posts_json]
  · intro env p
    refine ⟨rfl, rfl, rfl⟩

/-- C3 counterexample: `post0` has one attachment and one image, both
resolvable in `env0`, yet the ZIP encoding at `includeFiles = metadata`
emits no attachment or image entry at all (and so none carrying a MIME type
or byte size). -/
theorem export_zip_metadata_cex :
    post0.attachments.length = 1 ∧ (post0.uploaded_images.getD []).length = 1 ∧
    find_file_by_prefix env0.uploads UPLOADS_DIR att0.id =
      some "data/uploads/a1.pdf" ∧
    env0.fileExists "data/uploads/a1.pdf" = true ∧
    (export_post_zip env0 IncludeFiles.metadata post0).1.attachments = [] ∧
    (export_post_zip env0 IncludeFiles.metadata post0).1.images = [] :=
  ⟨rfl, rfl, by decide, rfl, rfl, rfl⟩

/-- C7 (amended): in the JSON encoding every attachment download URL and
image URL is `build_absolute_url` of the stored relative link — prefixed
with the base URL after stripping its trailing slashes when a non-empty
base is supplied, unchanged otherwise; in the ZIP encoding the `posts.json`
image entries keep the stored relative URL unchanged (the base URL is never
applied there). -/
theorem export_base_url_amended :
    (∀ rel : String, build_absolute_url rel none = rel) ∧
    (∀ rel b : String, b ≠ "" →
       build_absolute_url rel (some b) = rstripSlashes b ++ rel) ∧
    (∀ (env : Env) (incl : IncludeFiles) (base : Option String) (att : Attachment),
       (export_att_json env incl base att).download_url =
         build_absolute_url att.downloadUrl base) ∧
    (∀ (env : Env) (incl : IncludeFiles) (base : Option String) (img : UploadedImage),
       (export_img_json env incl base img).url = build_absolute_url img.url base) ∧
    (∀ (env : Env) (incl : IncludeFiles) (p : PostData),
       ∀ e ∈ (export_post_zip env incl p).1.images,
         ∃ img ∈ p.uploaded_images.getD [], e.url = img.url) := by
  refine ⟨fun rel => rfl, ?_, ?_, ?_, ?_⟩
  · intro rel b hb
    simp [build_absolute_url, hb]
  · intro env incl base att
    cases incl with
    | none => rfl
    | metadata =>
      cases hf : find_file_by_prefix env.uploads UPLOADS_DIR att.id with
      | none => simp [export_att_json, hf, att_item_basic]
      | some fp =>
        cases he : env.fileExists fp with
        | true => simp [export_att_json, hf, he, att_item_basic]
        | false => simp [export_att_json, hf, he, att_item_basic]
    | files =>
      cases hf : find_file_by_prefix env.uploads UPLOADS_DIR att.id with
      | none => simp [export_att_json, hf, att_item_basic]
      | some fp =>
        cases he : env.fileExists fp with
        | true => simp [export_att_json, hf, he, att_item_basic]
        | false => simp [export_att_json, hf, he, att_item_basic]
  · intro env incl base img
    cases incl with
    | none => rfl
    | metadata =>
      cases hf : find_file_by_prefix env.images IMAGES_DIR img.id with
      | none => simp [export_img_json, hf, img_item_basic]
      | some fp =>
        cases he : env.fileExists fp with
        | true => simp [export_img_json, hf, he, img_item_basic]
        | false => simp [export_img_json, hf, he, img_item_basic]
    | files =>
      cases hf : find_file_by_prefix env.images IMAGES_DIR img.id with
      | none => simp [export_img_json, hf, img_item_basic]
      | some fp =>
        cases he : env.fileExists fp with
        | true => simp [export_img_json, hf, he, img_item_basic]
        | false => simp [export_img_json, hf, he, img_item_basic]
  · intro env incl p e he
    by_cases hincl : incl = IncludeFiles.files
    · subst hincl
      simp only [export_post_zip, if_pos rfl] at he
      obtain ⟨img, hmem, himg⟩ := List.mem_filterMap.mp he
      refine ⟨img, hmem, ?_⟩
      cases hf : find_file_by_prefix env.images IMAGES_DIR img.id with
      | none => simp [hf] at himg
      | some fp =>
        simp only [hf] at himg
        cases hex : env.fileExists fp with
        | false => rw [hex] at himg; simp at himg
        | true =>
          rw [hex] at himg
          simp only [if_pos] at himg
          obtain rfl := Option.some_inj.mp himg
          rfl
    · simp [export_post_zip, hincl] at he

/-- Witness for C7 (amended): a base with a trailing slash is stripped
before being prefixed. -/
theorem export_base_url_amended_witness :
    ("http://h/" : String) ≠ "" ∧
    build_absolute_url "/a" (some "http://h/") = rstripSlashes "http://h/" ++ "/a" :=
  ⟨by decide, export_base_url_amended.2.1 "/a" "http://h/" (by decide)⟩

/-- C7 counterexample: exporting `post0` as ZIP with `includeFiles = files`
and a base URL emits the image URL `/static/images/i1.png` unchanged, not
the absolutized `http://h/static/images/i1.png` the claim requires. -/
theorem zip_url_not_absolutized_cex :
    (export_posts_zip env0 IncludeFiles.files (some "http://h") [post0]).1.map
        (fun z => z.images.map (fun e => e.url)) = [["/static/images/i1.png"]] ∧
    build_absolute_url "/static/images/i1.png" (some "http://h") =
      "http://h/static/images/i1.png" ∧
    ("/static/images/i1.png" : String) ≠ "http://h/static/images/i1.png" :=
  ⟨by decide, by decide, by decide⟩
/-! ## Whitespace normalisation lemmas for `strip_html_tags` -/

theorem dropWhile_head?_false {p : Char → Bool} {l : List Char} {c : Char}
    (h : (l.dropWhile p).head? = some c) : p c = false := by
  cases hd : l.dropWhile p with
  | nil => rw [hd] at h; simp at h
  | cons a tl =>
    rw [hd] at h
    simp at h
    rw [← h]
    exact dropWhile_head_false hd

theorem collapseAux_head {l : List Char} {c : Char}
    (h : (collapseAux true l).head? = some c) : pyWs c = false := by
  induction l with
  | nil => simp [collapseAux] at h
  | cons d cs ih =>
    by_cases hd : pyWs d = true
    · rw [collapseAux, if_pos hd, if_pos rfl] at h
      exact ih h
    · rw [collapseAux, if_neg hd] at h
      simp at h
      rw [← h]
      exact Bool.eq_false_iff.mpr hd

theorem collapseAux_chain (l : List Char) (prev : Bool) :
    (collapseAux prev l).Chain' (fun a b => pyWs a = true → pyWs b = false) := by
  induction l generalizing prev with
  | nil => exact List.chain'_nil
  | cons d cs ih =>
    by_cases hd : pyWs d = true
    · cases prev with
      | true =>
        rw [collapseAux, if_pos hd, if_pos rfl]
        exact ih true
      | false =>
        rw [collapseAux, if_pos hd]
        simp only [Bool.false_eq_true, if_false]
        refine List.chain'_cons'.mpr ⟨?_, ih true⟩
        intro y hy _
        exact collapseAux_head (Option.mem_def.mp hy)
    · rw [collapseAux, if_neg hd]
      refine List.chain'_cons'.mpr ⟨?_, ih false⟩
      intro y hy hws
      exact absurd hws hd

theorem chain'_dropWhile {R : Char → Char → Prop} {p : Char → Bool} {l : List Char}
    (h : l.Chain' R) : (l.dropWhile p).Chain' R := by
  induction l with
  | nil => exact List.chain'_nil
  | cons a tl ih =>
    rw [List.dropWhile_cons]
    split_ifs with ha
    · exact ih h.tail
    · exact h

theorem getLast?_of_suffix {l1 l2 : List Char} (h : l1 <:+ l2) (hne : l1 ≠ []) :
    l1.getLast? = l2.getLast? := by
  obtain ⟨t, rfl⟩ := h
  rw [List.getLast?_append]
  cases hg : l1.getLast? with
  | none => exact absurd (List.getLast?_eq_none_iff.mp hg) hne
  | some c => rfl

theorem pyStrip_norm (w : List Char)
    (hch : w.Chain' (fun a b => pyWs a = true → pyWs b = false)) :
    (pyStrip w).Chain' (fun a b => pyWs a = true → pyWs b = false) ∧
    (∀ c, (pyStrip w).head? = some c → pyWs c = false) ∧
    (∀ c, (pyStrip w).getLast? = some c → pyWs c = false) := by
  refine ⟨?_, ?_, ?_⟩
  · rw [pyStrip]
    refine List.chain'_reverse.mpr ?_
    refine chain'_dropWhile ?_
    refine List.chain'_reverse.mpr ?_
    exact chain'_dropWhile hch
  · intro c hc
    rw [pyStrip, List.head?_reverse] at hc
    have hzne : (w.dropWhile pyWs).reverse.dropWhile pyWs ≠ [] := by
      intro h0
      rw [h0] at hc
      simp at hc
    rw [getLast?_of_suffix (List.dropWhile_suffix pyWs) hzne,
        List.getLast?_reverse] at hc
    exact dropWhile_head?_false hc
  · intro c hc
    rw [pyStrip, List.getLast?_reverse] at hc
    exact dropWhile_head?_false hc

/-- C8: the derived `contentText` pipeline — remove script/style elements
with their content (case-insensitive, non-greedy), strip the remaining
tags, decode entities, collapse whitespace runs to single spaces and trim —
never leaves two adjacent whitespace characters nor leading or trailing
whitespace, and on the spec example
`<div>Hello <b>World</b><script>evil()</script></div>` it produces exactly
`Hello World`. -/
theorem strip_html_props :
    (∀ html : List Char,
       (strip_html_tags html).Chain' (fun a b => pyWs a = true → pyWs b = false) ∧
       (∀ c, (strip_html_tags html).head? = some c → pyWs c = false) ∧
       (∀ c, (strip_html_tags html).getLast? = some c → pyWs c = false)) ∧
    strip_html_tags "<div>Hello <b>World</b><script>evil()</script></div>".toList =
      "Hello World".toList := by
  constructor
  · intro html
    by_cases hh : html = []
    · subst hh
      exact ⟨List.chain'_nil,
             fun c hc => by simp [strip_html_tags] at hc,
             fun c hc => by simp [strip_html_tags] at hc⟩
    · rw [strip_html_tags, if_neg hh]
      exact pyStrip_norm _ (collapseAux_chain _ false)
  · decide

/-- Witness for C8 at the input `" a  b "` (normalised to `"a b"`). -/
theorem strip_html_props_witness :
    (strip_html_tags " a  b ".toList).head? = some 'a' ∧ pyWs 'a' = false :=
  ⟨by decide, (strip_html_props.1 " a  b ".toList).2.1 'a' (by decide)⟩
end WebPortal
